import Mathlib

/-!
Verification of the AI-Writing-Tool backend (src/api/agent.py, src/api/app.py).

The project state that flows through the backend is a JSON document: it is
received as the parsed JSON body of `POST /api/chat` and returned as JSON.
We embed it as `Value`, a JSON-like datatype (strings, integers, booleans,
null, arrays, ordered string-keyed objects).  A Python `dict` is embedded as
an ordered association list `List (String × Value)`, which preserves the
insertion order that Python dictionaries guarantee.  Numbers are modelled as
integers (`Int`); the claims under verification never depend on float values.

Imperative code is translated into explicit state passing.  A crucial point
of the source is that `dict.copy()` in `_apply_tool_calls_to_project` and the
subsequent in-place mutations (`list.append`, adding keys to nested dicts)
act on a *shallow* copy: nested objects stay shared between the copy and the
caller's project.  The embedding reflects this by computing, besides the
value of the modified copy, the post-state of the caller's project object
(`syncBack` below): every key present in the original project keeps pointing
at the same nested object as the copy, so its final value is the copy's final
value at that key; keys freshly added to the copy never appear in the
original.  Fallible statements are translated to `Except String`, the error
string standing for `str(e)` of the raised Python exception.
-/

/-- A JSON-like value, embedding the Python data that flows through the API:
`str`, `int`, `bool`, `None`, `list`, and (string-keyed, insertion-ordered)
`dict`. -/
inductive Value where
  | vstr (s : String)
  | vnum (n : Int)
  | vbool (b : Bool)
  | vnull
  | vlist (items : List Value)
  | vdict (fields : List (String × Value))

/-- A project document: a Python dict, i.e. an ordered association list. -/
abbrev Proj := List (String × Value)

/-- `d[k]` lookup / `k in d` support: first binding of `k`, embedding Python
`dict.get`. -/
def dictGet : List (String × Value) → String → Option Value
  | [], _ => none
  | (k2, v) :: rest, k => if k2 = k then some v else dictGet rest k

/-- `k in d` for a Python dict. -/
def hasKey (d : List (String × Value)) (k : String) : Bool :=
  (dictGet d k).isSome

/-- `d[k] = v` for a Python dict: replace the binding in place if the key is
present (Python keeps the original position), otherwise append the new
binding at the end (Python appends new keys in insertion order). -/
def dictSet : List (String × Value) → String → Value → List (String × Value)
  | [], k, v => [(k, v)]
  | (k2, v2) :: rest, k, v =>
    if k2 = k then (k, v) :: rest else (k2, v2) :: dictSet rest k v

/-- `del d[k]` for a Python dict. -/
def dictErase (d : List (String × Value)) (k : String) : List (String × Value) :=
  d.filter (fun kv => kv.1 ≠ k)

/-- Python truthiness (`if x:`) of an embedded value. -/
def Value.truthy : Value → Bool
  | .vstr s => s ≠ ""
  | .vnum n => n ≠ 0
  | .vbool b => b
  | .vnull => false
  | .vlist items => !items.isEmpty
  | .vdict fields => !fields.isEmpty

/-- `type(x).__name__` of an embedded value, used to spell out the error
messages of the exceptions the source can raise. -/
def pyTypeName : Value → String
  | .vstr _ => "str"
  | .vnum _ => "int"
  | .vbool _ => "bool"
  | .vnull => "NoneType"
  | .vlist _ => "list"
  | .vdict _ => "dict"

mutual

/-- Python `repr` of a value, as used when a container is interpolated into
an f-string (string escaping inside `repr` of a string is elided: the claims
never depend on it). -/
def pyRepr : Value → String
  | .vstr s => "\x27" ++ s ++ "\x27"
  | .vnum n => toString n
  | .vbool b => if b then "True" else "False"
  | .vnull => "None"
  | .vlist items => "[" ++ String.intercalate ", " (pyReprList items) ++ "]"
  | .vdict fields => "\x7b" ++ String.intercalate ", " (pyReprFields fields) ++ "\x7d"

def pyReprList : List Value → List String
  | [] => []
  | v :: rest => pyRepr v :: pyReprList rest

def pyReprFields : List (String × Value) → List String
  | [] => []
  | (k, v) :: rest => ("\x27" ++ k ++ "\x27: " ++ pyRepr v) :: pyReprFields rest

end

/-- Python `str` of a value, as used by f-string interpolation: like `repr`
except that a top-level string is taken verbatim. -/
def pyStr : Value → String
  | .vstr s => s
  | v => pyRepr v

/-- One hexadecimal digit, lowercase (as produced by `json.dumps`). -/
def hexDigit (n : Nat) : Char :=
  if n < 10 then Char.ofNat (48 + n) else Char.ofNat (87 + (n % 16))

/-- Four-digit lowercase hexadecimal, for `\uXXXX` escapes. -/
def hex4 (n : Nat) : String :=
  String.mk [hexDigit (n / 4096 % 16), hexDigit (n / 256 % 16),
             hexDigit (n / 16 % 16), hexDigit (n % 16)]

/-- Escape one character the way `json.dumps` (default `ensure_ascii=True`)
does. -/
def jsonEscapeChar (c : Char) : String :=
  if c = '\"' then "\\\""
  else if c = '\\' then "\\\\"
  else if c = '\n' then "\\n"
  else if c = '\t' then "\\t"
  else if c = '\r' then "\\r"
  else if c.toNat < 32 then "\\u" ++ hex4 c.toNat
  else if c.toNat < 127 then String.mk [c]
  else if c.toNat < 65536 then "\\u" ++ hex4 c.toNat
  else
    "\\u" ++ hex4 (55296 + (c.toNat - 65536) / 1024) ++
    "\\u" ++ hex4 (56320 + (c.toNat - 65536) % 1024)

/-- Escape a string the way `json.dumps` does. -/
def jsonEscape (s : String) : String :=
  String.join (s.toList.map jsonEscapeChar)

/-- `indent` spaces. -/
def pad (indent : Nat) : String :=
  String.mk (List.replicate indent ' ')

mutual

/-- `json.dumps(v, indent=2)` at nesting depth `indent` (the claims only use
JSON-serialisable values, so serialisation is total). -/
def dumpsAux : Nat → Value → String
  | _, .vstr s => "\"" ++ jsonEscape s ++ "\""
  | _, .vnum n => toString n
  | _, .vbool b => if b then "true" else "false"
  | _, .vnull => "null"
  | _, .vlist [] => "[]"
  | indent, .vlist (v :: rest) =>
    "[\n" ++ String.intercalate ",\n" (dumpsListAux (indent + 2) (v :: rest)) ++
    "\n" ++ pad indent ++ "]"
  | _, .vdict [] => "\x7b\x7d"
  | indent, .vdict (kv :: rest) =>
    "\x7b\n" ++ String.intercalate ",\n" (dumpsFieldsAux (indent + 2) (kv :: rest)) ++
    "\n" ++ pad indent ++ "\x7d"

def dumpsListAux : Nat → List Value → List String
  | _, [] => []
  | indent, v :: rest => (pad indent ++ dumpsAux indent v) :: dumpsListAux indent rest

def dumpsFieldsAux : Nat → List (String × Value) → List String
  | _, [] => []
  | indent, (k, v) :: rest =>
    (pad indent ++ "\"" ++ jsonEscape k ++ "\": " ++ dumpsAux indent v) ::
    dumpsFieldsAux indent rest

end

/-- `json.dumps(v, indent=2)`. -/
def dumps (v : Value) : String := dumpsAux 0 v

/-- Python `str.title()` restricted to the alphabetic/space strings it is
applied to: uppercase the first letter of each alphabetic run, lowercase the
rest. -/
def pyTitleAux : Bool → List Char → List Char
  | _, [] => []
  | prevAlpha, c :: rest =>
    (if c.isAlpha then (if prevAlpha then c.toLower else c.toUpper) else c) ::
    pyTitleAux c.isAlpha rest

/-- Python `str.title()`. -/
def pyTitle (s : String) : String := String.mk (pyTitleAux false s.toList)

/-- `", ".join(items)` over embedded values: every item must be a `str`,
otherwise `join` raises `TypeError`. -/
def pyJoinAux : Nat → List Value → Except String (List String)
  | _, [] => Except.ok []
  | i, .vstr s :: rest =>
    match pyJoinAux (i + 1) rest with
    | Except.ok tl => Except.ok (s :: tl)
    | Except.error e => Except.error e
  | i, v :: _ =>
    Except.error ("sequence item " ++ toString i ++ ": expected str instance, " ++
      pyTypeName v ++ " found")

/-- `sep.join(items)` over embedded values. -/
def pyJoin (sep : String) (items : List Value) : Except String String :=
  match pyJoinAux 0 items with
  | Except.ok parts => Except.ok (String.intercalate sep parts)
  | Except.error e => Except.error e

/-!
## WritingAgent (src/api/agent.py)
-/

/-- The keys of `WritingAgent.system_prompts`.  The prompt texts themselves
are natural-language strings that no claim depends on; only the key set is
used (phase validation in `_get_current_phase`, and the keys of
`self.agents`, which is built by iterating `system_prompts.items()`). -/
def systemPromptKeys : List String := ["plan_organize", "write", "edit_revise"]

/-- The keys of `self.agents`: one agent per phase of `system_prompts`. -/
def agentKeys : List String := systemPromptKeys

/-- A LangChain chat message produced by `_extract_chat_history`
(`HumanMessage` / `AIMessage`). -/
inductive LCMessage where
  | human (content : Value)
  | ai (content : Value)

/-- The element loop of `_extract_chat_history`: `message.get("role")` needs
the element to be a dict (anything else raises `AttributeError`); a `"user"`
role yields a `HumanMessage`, an `"assistant"` role an `AIMessage`, any other
role is skipped; the content defaults to `""`. -/
def extractMessages : List Value → Except String (List LCMessage)
  | [] => Except.ok []
  | Value.vdict msg :: rest =>
    match dictGet msg "role" with
    | some (Value.vstr r) =>
      if r = "user" then
        match extractMessages rest with
        | Except.ok tl => Except.ok (LCMessage.human ((dictGet msg "content").getD (Value.vstr "")) :: tl)
        | Except.error e => Except.error e
      else if r = "assistant" then
        match extractMessages rest with
        | Except.ok tl => Except.ok (LCMessage.ai ((dictGet msg "content").getD (Value.vstr "")) :: tl)
        | Except.error e => Except.error e
      else extractMessages rest
    | _ => extractMessages rest
  | v :: _ =>
    Except.error ("\x27" ++ pyTypeName v ++ "\x27 object has no attribute \x27get\x27")

/-- `WritingAgent._extract_chat_history`: skipped entirely when
`"chatHistory"` is absent or falsy; iterating a truthy string or dict hands
one-character strings or key strings to `message.get`, raising
`AttributeError`; iterating a truthy number or boolean raises `TypeError`. -/
def extractChatHistory (project : Proj) : Except String (List LCMessage) :=
  match dictGet project "chatHistory" with
  | none => Except.ok []
  | some v =>
    if v.truthy = false then Except.ok []
    else match v with
      | Value.vlist msgs => extractMessages msgs
      | Value.vstr _ => Except.error "\x27str\x27 object has no attribute \x27get\x27"
      | Value.vdict _ => Except.error "\x27str\x27 object has no attribute \x27get\x27"
      | v2 => Except.error ("\x27" ++ pyTypeName v2 ++ "\x27 object is not iterable")

/-- `WritingAgent._get_current_phase`: `project.get("currentPhase",
"plan_organize")`, then `if current_phase not in self.system_prompts:`
falls back to `"plan_organize"`.  Membership in a dict hashes the candidate
key, so an unhashable value (a list or a dict) raises `TypeError`; any
hashable non-key value (a foreign string, a number, a boolean, `None`) just
fails the membership test and resolves to the default. -/
def getCurrentPhase (project : Proj) : Except String String :=
  match (dictGet project "currentPhase").getD (Value.vstr "plan_organize") with
  | Value.vstr s =>
    Except.ok (if systemPromptKeys.contains s then s else "plan_organize")
  | Value.vlist _ => Except.error "unhashable type: \x27list\x27"
  | Value.vdict _ => Except.error "unhashable type: \x27dict\x27"
  | _ => Except.ok "plan_organize"

/-- `_get_current_phase` viewed as a procedure: its return value together
with the post-state of the `project` argument.  The body only reads the
dict (`.get` and `in`), so the post-state is the argument itself. -/
def getCurrentPhaseProc (project : Proj) : Except String String × Proj :=
  (getCurrentPhase project, project)

/-- `WritingAgent._create_project_context`: collects the `Project Title:`,
`Project Description:`, `Current Brainstorm Ideas:`, `Current Outline:`,
`Current Content:` (truncated past 1000 characters) and `Current Phase:`
lines for the truthy fields, joined by newlines. -/
def createProjectContext (project : Proj) : Except String String := do
  let parts0 : List String := []
  let parts1 :=
    match dictGet project "title" with
    | some v => if v.truthy then parts0 ++ ["Project Title: " ++ pyStr v] else parts0
    | none => parts0
  let parts2 :=
    match dictGet project "description" with
    | some v => if v.truthy then parts1 ++ ["Project Description: " ++ pyStr v] else parts1
    | none => parts1
  let parts3 ←
    match dictGet project "brainstormIdeas" with
    | some v =>
      if v.truthy then
        match v with
        | Value.vlist ideas =>
          if ideas.isEmpty then pure parts2
          else do
            let joined ← pyJoin ", " ideas
            pure (parts2 ++ ["Current Brainstorm Ideas: " ++ joined])
        | _ => pure parts2
      else pure parts2
    | none => pure parts2
  let parts4 :=
    match dictGet project "outline" with
    | some v => if v.truthy then parts3 ++ ["Current Outline: " ++ pyStr v] else parts3
    | none => parts3
  let parts5 ←
    match dictGet project "content" with
    | some v =>
      if v.truthy then
        match v with
        | Value.vstr s =>
          pure (parts4 ++ ["Current Content: " ++
            (if s.length > 1000 then s.take 1000 ++ "..." else s)])
        | Value.vlist items =>
          if items.length > 1000 then
            Except.error "can only concatenate list (not \"str\") to list"
          else pure (parts4 ++ ["Current Content: " ++ pyStr (Value.vlist items)])
        | Value.vdict fields =>
          if fields.length > 1000 then Except.error "unhashable type: \x27slice\x27"
          else pure (parts4 ++ ["Current Content: " ++ pyStr (Value.vdict fields)])
        | v2 => Except.error ("object of type \x27" ++ pyTypeName v2 ++ "\x27 has no len()")
      else pure parts4
    | none => pure parts4
  let currentPhase ← getCurrentPhase project
  let parts6 := parts5 ++ ["Current Phase: " ++ pyTitle (currentPhase.replace "_" " ")]
  pure (if parts6.isEmpty then "No additional context available." else
    String.intercalate "\n" parts6)

/-- `WritingAgent._create_full_project_context`: serialise a copy of the
project without its `chatHistory` key.  `json.dumps` is total on the
JSON-shaped values of the embedding, so the `except` fallback of the source
(which would return `_create_project_context`) is unreachable here. -/
def createFullProjectContext (project : Proj) : String :=
  "Complete Project State (JSON):\n" ++ dumps (Value.vdict (dictErase project "chatHistory"))

/-- The `full_input` f-string composed by `process_chat_message`. -/
def mkFullInput (projectContext userInput : String) : String :=
  "Full Project State:\n" ++ projectContext ++ "\n\nUser Message: " ++ userInput ++
  "\n\nIMPORTANT: Keep your response concise and conversational (1-2 sentences max). Use a casual, friendly tone like you\x27re texting a friend."

/-- The `tool_input` of a LangChain `AgentAction`: either a keyword dict
(the validated-tool-call case; the declared argument schemas are all `str`)
or a raw string, on which `.get` raises `AttributeError`. -/
inductive ToolInput where
  | args (kwargs : List (String × String))
  | rawStr (s : String)

/-- First binding of a keyword in a `tool_input` dict (`tool_input.get`). -/
def argsGet : List (String × String) → String → Option String
  | [], _ => none
  | (k2, v) :: rest, k => if k2 = k then some v else argsGet rest k

/-- A LangChain agent action as inspected by
`_apply_tool_calls_to_project`: `tool = none` embeds an action object
without a `tool` attribute (`hasattr(action, "tool")` false). -/
structure AgentAction where
  tool : Option String
  tool_input : ToolInput

/-- One element of `agent_result["intermediate_steps"]`: either a tuple of
length at least two, giving an action and an observation, or anything else,
which the source skips. -/
inductive Step where
  | tup (action : AgentAction) (observation : String)
  | nonTup (descr : String)

/-- The dict returned by `AgentExecutor.invoke`, as consumed by
`process_chat_message`: its `"output"` entry and (when present) its
`"intermediate_steps"` entry. -/
structure AgentResult where
  output : Option String
  intermediate_steps : Option (List Step)

/-- The outcome of the `agent.invoke` call: the language-model backend
either returns a result dict or raises. -/
inductive AgentOutcome where
  | ok (result : AgentResult)
  | raise (e : String)

/-- The idea record appended by the `add_idea` handler, with `n` the length
of the ideas list after the append (`len(...) + 1` is computed before the
append). -/
def ideaRecord (n : Nat) (idea : String) : Value :=
  Value.vdict [("id", Value.vstr ("ai_idea_" ++ toString n)),
               ("content", Value.vstr idea),
               ("location", Value.vstr "brainstorm"),
               ("aiGenerated", Value.vbool true)]

/-- The suggestion record appended by the `add_comment` handler: its
`content` is the `comment_text` argument. -/
def commentRecord (n : Nat) (commentText : String) : Value :=
  Value.vdict [("id", Value.vstr ("ai_comment_" ++ toString n)),
               ("content", Value.vstr commentText),
               ("type", Value.vstr "comment"),
               ("aiGenerated", Value.vbool true)]

/-- The `add_idea` body of `_apply_tool_calls_to_project`: ensure
`modified_project["plan"]["ideas"]` exists (creating `plan` and `ideas`
exactly when absent), then append an idea record whose id is
`"ai_idea_" + (len(ideas) + 1)`.  A non-dict `plan` or non-list `ideas`
value raises (`in`, item assignment, `len`, or `.append` fails). -/
def addIdeaToProject (m : Proj) (idea : String) : Except String Proj :=
  match dictGet m "plan" with
  | none =>
    Except.ok (dictSet m "plan" (Value.vdict [("ideas", Value.vlist [ideaRecord 1 idea])]))
  | some (Value.vdict pf) =>
    match dictGet pf "ideas" with
    | none =>
      Except.ok (dictSet m "plan"
        (Value.vdict (dictSet pf "ideas" (Value.vlist [ideaRecord 1 idea]))))
    | some (Value.vlist xs) =>
      Except.ok (dictSet m "plan"
        (Value.vdict (dictSet pf "ideas"
          (Value.vlist (xs ++ [ideaRecord (xs.length + 1) idea])))))
    | some (Value.vstr _) => Except.error "\x27str\x27 object has no attribute \x27append\x27"
    | some (Value.vdict _) => Except.error "\x27dict\x27 object has no attribute \x27append\x27"
    | some v => Except.error ("object of type \x27" ++ pyTypeName v ++ "\x27 has no len()")
  | some (Value.vstr s) =>
    Except.error (if (s.splitOn "ideas").length > 1 then "string indices must be integers"
      else "\x27str\x27 object does not support item assignment")
  | some (Value.vlist _) => Except.error "list indices must be integers or slices, not str"
  | some v => Except.error ("argument of type \x27" ++ pyTypeName v ++ "\x27 is not iterable")

/-- The `add_comment` body of `_apply_tool_calls_to_project`, mirroring
`addIdeaToProject` on `modified_project["edit"]["suggestions"]`. -/
def addCommentToProject (m : Proj) (commentText : String) : Except String Proj :=
  match dictGet m "edit" with
  | none =>
    Except.ok (dictSet m "edit"
      (Value.vdict [("suggestions", Value.vlist [commentRecord 1 commentText])]))
  | some (Value.vdict ef) =>
    match dictGet ef "suggestions" with
    | none =>
      Except.ok (dictSet m "edit"
        (Value.vdict (dictSet ef "suggestions" (Value.vlist [commentRecord 1 commentText]))))
    | some (Value.vlist xs) =>
      Except.ok (dictSet m "edit"
        (Value.vdict (dictSet ef "suggestions"
          (Value.vlist (xs ++ [commentRecord (xs.length + 1) commentText])))))
    | some (Value.vstr _) => Except.error "\x27str\x27 object has no attribute \x27append\x27"
    | some (Value.vdict _) => Except.error "\x27dict\x27 object has no attribute \x27append\x27"
    | some v => Except.error ("object of type \x27" ++ pyTypeName v ++ "\x27 has no len()")
  | some (Value.vstr s) =>
    Except.error (if (s.splitOn "suggestions").length > 1 then "string indices must be integers"
      else "\x27str\x27 object does not support item assignment")
  | some (Value.vlist _) => Except.error "list indices must be integers or slices, not str"
  | some v => Except.error ("argument of type \x27" ++ pyTypeName v ++ "\x27 is not iterable")

/-- One iteration of the `intermediate_steps` loop of
`_apply_tool_calls_to_project`.  Non-tuples, actions without a `tool`
attribute, unknown tool names, and calls whose required string arguments are
missing or empty (Python truthiness of the `.get(..., "")` default) are all
skipped without an error; `.get` on a raw-string `tool_input` raises. -/
def applyStep (m : Proj) (st : Step) : Except String Proj :=
  match st with
  | Step.nonTup _ => Except.ok m
  | Step.tup action _ =>
    match action.tool with
    | none => Except.ok m
    | some t =>
      if t = "add_idea" then
        match action.tool_input with
        | ToolInput.rawStr _ => Except.error "\x27str\x27 object has no attribute \x27get\x27"
        | ToolInput.args kwargs =>
          let idea := (argsGet kwargs "idea").getD ""
          if idea = "" then Except.ok m else addIdeaToProject m idea
      else if t = "add_comment" then
        match action.tool_input with
        | ToolInput.rawStr _ => Except.error "\x27str\x27 object has no attribute \x27get\x27"
        | ToolInput.args kwargs =>
          let content := (argsGet kwargs "content").getD ""
          let commentText := (argsGet kwargs "comment_text").getD ""
          if content = "" then Except.ok m
          else if commentText = "" then Except.ok m
          else addCommentToProject m commentText
      else Except.ok m

/-- The `intermediate_steps` loop: steps are applied in order; an exception
aborts the loop, leaving the modifications already applied in place.  The
second component is the state of `modified_project` when the loop ends
(normally or by the exception): each step either completes or raises before
mutating anything, so the state at an exception is the state before the
failing step. -/
def applyStepsGo : Proj → List Step → Except String Proj × Proj
  | m, [] => (Except.ok m, m)
  | m, st :: rest =>
    match applyStep m st with
    | Except.ok m2 => applyStepsGo m2 rest
    | Except.error e => (Except.error e, m)

/-- `WritingAgent._apply_tool_calls_to_project`: start from
`project.copy()` and fold the intermediate steps (when the
`"intermediate_steps"` key is present).  The first component is the returned
modified project or the raised exception; the second is the state of the
(shallow) copy when the call ends, which `syncBack` below uses to recover
what the aliased input object now holds. -/
def applyToolCallsToProject (project : Proj) (result : AgentResult) :
    Except String Proj × Proj :=
  match result.intermediate_steps with
  | none => (Except.ok project, project)
  | some steps => applyStepsGo project steps

/-- A chat-history entry dict as built by `process_chat_message`
(`{"role": ..., "content": ...}`, in that insertion order). -/
def chatEntry (role : String) (content : Value) : Value :=
  Value.vdict [("role", Value.vstr role), ("content", content)]

/-- The chat-history block of `process_chat_message`: create
`modified_project["chatHistory"]` as `[]` when the key is absent, then
append the user message and the assistant reply.  `.append` on a non-list
value raises `AttributeError` before mutating anything. -/
def appendChat (m : Proj) (userInput aiResponse : String) : Except String Proj :=
  let m1 := if hasKey m "chatHistory" then m else dictSet m "chatHistory" (Value.vlist [])
  match dictGet m1 "chatHistory" with
  | some (Value.vlist msgs) =>
    Except.ok (dictSet m1 "chatHistory"
      (Value.vlist (msgs ++ [chatEntry "user" (Value.vstr userInput),
                             chatEntry "assistant" (Value.vstr aiResponse)])))
  | some v => Except.error ("\x27" ++ pyTypeName v ++ "\x27 object has no attribute \x27append\x27")
  | none => Except.error "KeyError: \x27chatHistory\x27"

/-- Recover the post-state of the caller's project object from the state of
the shallow copy.  `modified_project = project.copy()` shares every nested
object with `project`; the source never deletes a key of the copy and never
reassigns a key the copy already had (fresh `\x7b\x7d` / `[]` objects are only
assigned to *absent* keys), so every key of the original project ends up
holding exactly the copy's current value at that key, while keys freshly
added to the copy never appear in the original. -/
def syncBack (project m : Proj) : Proj :=
  project.map (fun kv => (kv.1, (dictGet m kv.1).getD kv.2))

/-- The reply prefix of the `except` clause of `process_chat_message`. -/
def errorReplyLead : String := "I encountered an error while processing your request: "

/-- What a call of `process_chat_message` produces: the reply string, the
project dict handed back to the caller (the modified copy on success, the
caller's own — possibly mutated — project object on the error path), and
whether the `try` block completed. -/
structure ChatOutcome where
  reply : String
  project : Proj
  ok : Bool

/-- `WritingAgent.process_chat_message`, parameterised by the outcome of the
`agent.invoke` call (the hosted language model is an external black box).
The steps of the `try` block in source order: extract the chat history,
resolve the phase, build the full project context and the composed input,
look the agent up by phase (`self.agents[current_phase]`, a `KeyError` if the
phase were unregistered), invoke the agent, read `result["output"]` with its
default, apply the tool calls to a shallow copy, and append the two chat
entries.  Any exception is caught and turned into an error reply carrying
`str(e)`, returned together with the caller's project object — whose state
reflects every in-place mutation already applied through the shared
substructures of the shallow copy. -/
def processChatMessage (oracle : AgentOutcome) (userInput : String) (project : Proj) :
    ChatOutcome :=
  match extractChatHistory project with
  | Except.error e => ⟨errorReplyLead ++ e, project, false⟩
  | Except.ok _chatHistory =>
    match getCurrentPhase project with
    | Except.error e => ⟨errorReplyLead ++ e, project, false⟩
    | Except.ok currentPhase =>
      let projectContext := createFullProjectContext project
      let _fullInput := mkFullInput projectContext userInput
      if agentKeys.contains currentPhase then
        match oracle with
        | AgentOutcome.raise e => ⟨errorReplyLead ++ e, project, false⟩
        | AgentOutcome.ok result =>
          let aiResponse := result.output.getD "I\x27m sorry, I couldn\x27t process your request."
          match applyToolCallsToProject project result with
          | (Except.error e, m) => ⟨errorReplyLead ++ e, syncBack project m, false⟩
          | (Except.ok m, _) =>
            match appendChat m userInput aiResponse with
            | Except.error e => ⟨errorReplyLead ++ e, syncBack project m, false⟩
            | Except.ok m2 => ⟨aiResponse, m2, true⟩
      else ⟨errorReplyLead ++ "\x27" ++ currentPhase ++ "\x27", project, false⟩

/-!
## HTTP endpoint (src/api/app.py)
-/

/-- Where the `chat` handler of `app.py` ends up: an early JSON response
(produced before the orchestrator is ever invoked), or the delegation
`agent.process_chat_message(user_input, project)` with the validated
values. -/
inductive ChatRoute where
  | reject (status : Nat) (error : String) (assistantReply : Option String)
  | invokeAgent (userInput : Value) (currentProject : Value)

/-- The validation prefix of the `POST /api/chat` handler, in source order:
`data` absent or falsy → 400 `No data provided`; `data.get` on a truthy
non-dict body → the generic 500 of the outer `except`; falsy
`data.get("userInput", "")` → 400 `No userInput provided`; falsy
`data.get("currentProject", \x7b\x7d)` → 400 `No currentProject provided`;
agent not initialised at startup → 500 `AI service not available`; otherwise
the handler calls the orchestrator. -/
def chatRoute (agentInitialized : Bool) (data : Option Value) : ChatRoute :=
  match data with
  | none => ChatRoute.reject 400 "No data provided" none
  | some d =>
    if d.truthy = false then ChatRoute.reject 400 "No data provided" none
    else match d with
      | Value.vdict fields =>
        let userInput := (dictGet fields "userInput").getD (Value.vstr "")
        if userInput.truthy = false then
          ChatRoute.reject 400 "No userInput provided" (some "Please provide a message.")
        else
          let project := (dictGet fields "currentProject").getD (Value.vdict [])
          if project.truthy = false then
            ChatRoute.reject 400 "No currentProject provided" (some "Project data is required.")
          else if agentInitialized = false then
            ChatRoute.reject 500 "AI service not available"
              (some "The AI Writing Assistant service is not properly configured. Please contact your administrator.")
          else ChatRoute.invokeAgent userInput project
      | other =>
        ChatRoute.reject 500
          ("Internal server error: \x27" ++ pyTypeName other ++ "\x27 object has no attribute \x27get\x27")
          none

/-- The `plan` shapes the data model allows: `plan` absent, or a dict whose
`ideas` entry is absent or a list.  (Any other shape makes the idea handler
raise instead of appending.) -/
def planShapeOk (p : Proj) : Bool :=
  match dictGet p "plan" with
  | none => true
  | some (Value.vdict pf) =>
    match dictGet pf "ideas" with
    | none => true
    | some (Value.vlist _) => true
    | some _ => false
  | some _ => false

/-- The `edit` shapes the data model allows, mirroring `planShapeOk`. -/
def editShapeOk (p : Proj) : Bool :=
  match dictGet p "edit" with
  | none => true
  | some (Value.vdict ef) =>
    match dictGet ef "suggestions" with
    | none => true
    | some (Value.vlist _) => true
    | some _ => false
  | some _ => false

/-- The `plan.ideas` list of a project (`[]` when absent). -/
def ideasOf (p : Proj) : List Value :=
  match dictGet p "plan" with
  | some (Value.vdict pf) =>
    match dictGet pf "ideas" with
    | some (Value.vlist xs) => xs
    | _ => []
  | _ => []

/-- The `edit.suggestions` list of a project (`[]` when absent). -/
def suggestionsOf (p : Proj) : List Value :=
  match dictGet p "edit" with
  | some (Value.vdict ef) =>
    match dictGet ef "suggestions" with
    | some (Value.vlist xs) => xs
    | _ => []
  | _ => []

/-- A `currentPhase` entry that is absent, or holds a hashable value that is
not one of the three registered phase keys: a non-member string, a number, a
boolean, or null.  (Lists and dicts are unhashable: Python's `in` raises on
them instead of resolving the phase.) -/
def unrecognizedHashablePhase : Option Value → Bool
  | none => true
  | some (Value.vstr s) => !(systemPromptKeys.contains s)
  | some (Value.vnum _) => true
  | some (Value.vbool _) => true
  | some Value.vnull => true
  | some (Value.vlist _) => false
  | some (Value.vdict _) => false

/-- A tool invocation with a missing required argument: `add_idea` without
`idea`, or `add_comment` without `content` or without `comment_text`. -/
def missingArgStep : Step → Bool
  | Step.tup action _ =>
    match action.tool, action.tool_input with
    | some t, ToolInput.args kwargs =>
      if t = "add_idea" then (argsGet kwargs "idea").isNone
      else if t = "add_comment" then
        (argsGet kwargs "content").isNone || (argsGet kwargs "comment_text").isNone
      else false
    | _, _ => false
  | Step.nonTup _ => false

/-!
## The non-destructive-mutation relation (growth of a project document)
-/

/-- How a list-valued entry may evolve under the source's mutations: an
absent entry may become anything (it can be freshly created), a list may
only be extended at the end, any other value must stay untouched. -/
def valGrows : Option Value → Option Value → Prop
  | none, _ => True
  | some (Value.vlist xs), b => ∃ ys, b = some (Value.vlist (xs ++ ys))
  | some (Value.vstr s), b => b = some (Value.vstr s)
  | some (Value.vnum n), b => b = some (Value.vnum n)
  | some (Value.vbool x), b => b = some (Value.vbool x)
  | some Value.vnull, b => b = some Value.vnull
  | some (Value.vdict f), b => b = some (Value.vdict f)

/-- How a `plan`/`edit`-like entry may evolve: an absent entry may be
created, a dict keeps every key except `key` untouched while its `key` entry
grows per `valGrows`, and any non-dict value must stay untouched. -/
def subGrows : String → Option Value → Option Value → Prop
  | _, none, _ => True
  | key, some (Value.vdict pf), b =>
    ∃ pf2, b = some (Value.vdict pf2) ∧
      (∀ k, k ≠ key → dictGet pf2 k = dictGet pf k) ∧
      valGrows (dictGet pf key) (dictGet pf2 key)
  | _, some (Value.vstr s), b => b = some (Value.vstr s)
  | _, some (Value.vnum n), b => b = some (Value.vnum n)
  | _, some (Value.vbool x), b => b = some (Value.vbool x)
  | _, some Value.vnull, b => b = some Value.vnull
  | _, some (Value.vlist l), b => b = some (Value.vlist l)

/-- Non-destructive evolution of the whole project document: every entry
other than `plan`, `edit` and `chatHistory` is untouched; `plan.ideas`,
`edit.suggestions` and `chatHistory` only grow by appending, with the other
fields inside `plan`/`edit` untouched. -/
def projectPreserved (p q : Proj) : Prop :=
  (∀ k, k ≠ "plan" → k ≠ "edit" → k ≠ "chatHistory" → dictGet q k = dictGet p k) ∧
  subGrows "ideas" (dictGet p "plan") (dictGet q "plan") ∧
  subGrows "suggestions" (dictGet p "edit") (dictGet q "edit") ∧
  valGrows (dictGet p "chatHistory") (dictGet q "chatHistory")

/-!
## Library lemmas about the dict embedding
-/


theorem dictGet_dictSet_self (d : List (String × Value)) (k : String) (v : Value) :
    dictGet (dictSet d k v) k = some v := by
  induction d with
  | nil => simp [dictGet, dictSet]
  | cons kv rest ih =>
    obtain ⟨k2, v2⟩ := kv
    by_cases h : k2 = k
    · simp [dictGet, dictSet, h]
    · simp [dictGet, dictSet, h, ih]

theorem dictGet_dictSet_ne (d : List (String × Value)) (k k2 : String) (v : Value)
    (h : k2 ≠ k) : dictGet (dictSet d k v) k2 = dictGet d k2 := by
  induction d with
  | nil => simp [dictGet, dictSet, Ne.symm h]
  | cons kv rest ih =>
    obtain ⟨k3, v3⟩ := kv
    by_cases h3 : k3 = k
    · subst h3
      simp [dictGet, dictSet, Ne.symm h]
    · by_cases h4 : k3 = k2
      · simp [dictGet, dictSet, h3, h4, h]
      · simp [dictGet, dictSet, h3, h4, ih]

theorem hasKey_eq_true_iff (d : List (String × Value)) (k : String) :
    hasKey d k = true ↔ ∃ v, dictGet d k = some v := by
  simp [hasKey, Option.isSome_iff_exists]

theorem hasKey_eq_false_iff (d : List (String × Value)) (k : String) :
    hasKey d k = false ↔ dictGet d k = none := by
  unfold hasKey
  cases dictGet d k <;> simp

theorem dictGet_syncBack (p m : Proj) (k : String) :
    dictGet (syncBack p m) k = (dictGet p k).map (fun v => (dictGet m k).getD v) := by
  induction p with
  | nil => simp [syncBack, dictGet]
  | cons kv rest ih =>
    obtain ⟨k2, v2⟩ := kv
    by_cases h : k2 = k
    · subst h
      simp [syncBack, dictGet]
    · simpa [syncBack, dictGet, h] using ih

theorem valGrows_refl (a : Option Value) : valGrows a a := by
  match a with
  | none => trivial
  | some (Value.vlist xs) => exact ⟨[], by simp⟩
  | some (Value.vstr s) => rfl
  | some (Value.vnum n) => rfl
  | some (Value.vbool x) => rfl
  | some Value.vnull => rfl
  | some (Value.vdict f) => rfl

theorem valGrows_trans {a b c : Option Value} (h1 : valGrows a b) (h2 : valGrows b c) :
    valGrows a c := by
  match a with
  | none => trivial
  | some (Value.vlist xs) =>
    obtain ⟨ys, hb⟩ := h1
    subst hb
    obtain ⟨zs, hc⟩ := h2
    exact ⟨ys ++ zs, by simpa using hc⟩
  | some (Value.vstr s) => subst h1; exact h2
  | some (Value.vnum n) => subst h1; exact h2
  | some (Value.vbool x) => subst h1; exact h2
  | some Value.vnull => subst h1; exact h2
  | some (Value.vdict f) => subst h1; exact h2

theorem subGrows_refl (key : String) (a : Option Value) : subGrows key a a := by
  match a with
  | none => trivial
  | some (Value.vdict pf) => exact ⟨pf, rfl, fun k _ => rfl, valGrows_refl _⟩
  | some (Value.vstr s) => exact rfl
  | some (Value.vnum n) => exact rfl
  | some (Value.vbool x) => exact rfl
  | some Value.vnull => exact rfl
  | some (Value.vlist l) => exact rfl

theorem subGrows_trans {key : String} {a b c : Option Value}
    (h1 : subGrows key a b) (h2 : subGrows key b c) : subGrows key a c := by
  match a with
  | none => trivial
  | some (Value.vdict pf) =>
    obtain ⟨pf2, hb, hkeys, hgrow⟩ := h1
    subst hb
    obtain ⟨pf3, hc, hkeys2, hgrow2⟩ := h2
    exact ⟨pf3, hc, fun k hk => (hkeys2 k hk).trans (hkeys k hk),
      valGrows_trans hgrow hgrow2⟩
  | some (Value.vstr s) => subst h1; exact h2
  | some (Value.vnum n) => subst h1; exact h2
  | some (Value.vbool x) => subst h1; exact h2
  | some Value.vnull => subst h1; exact h2
  | some (Value.vlist l) => subst h1; exact h2

theorem projectPreserved_refl (p : Proj) : projectPreserved p p :=
  ⟨fun _ _ _ _ => rfl, subGrows_refl _ _, subGrows_refl _ _, valGrows_refl _⟩

theorem projectPreserved_trans {p q r : Proj}
    (h1 : projectPreserved p q) (h2 : projectPreserved q r) : projectPreserved p r := by
  obtain ⟨e1, p1, d1, c1⟩ := h1
  obtain ⟨e2, p2, d2, c2⟩ := h2
  refine ⟨fun k hk1 hk2 hk3 => (e2 k hk1 hk2 hk3).trans (e1 k hk1 hk2 hk3), ?_, ?_, ?_⟩
  · exact subGrows_trans p1 p2
  · exact subGrows_trans d1 d2
  · exact valGrows_trans c1 c2

/-!
## Preservation lemmas for the mutating operations
-/

theorem addIdeaToProject_get_ne {m m2 : Proj} {idea : String}
    (h : addIdeaToProject m idea = Except.ok m2) :
    ∀ k, k ≠ "plan" → dictGet m2 k = dictGet m k := by
  intro k hk
  unfold addIdeaToProject at h
  repeat' split at h
  all_goals try simp only [Except.ok.injEq] at h
  all_goals first
    | (subst h; exact dictGet_dictSet_ne _ _ _ _ hk)
    | simp at h

theorem addCommentToProject_get_ne {m m2 : Proj} {commentText : String}
    (h : addCommentToProject m commentText = Except.ok m2) :
    ∀ k, k ≠ "edit" → dictGet m2 k = dictGet m k := by
  intro k hk
  unfold addCommentToProject at h
  repeat' split at h
  all_goals try simp only [Except.ok.injEq] at h
  all_goals first
    | (subst h; exact dictGet_dictSet_ne _ _ _ _ hk)
    | simp at h

/-- Value of `addIdeaToProject` when `plan` is absent. -/
theorem addIdea_eq_noplan {m : Proj} {idea : String} (hplan : dictGet m "plan" = none) :
    addIdeaToProject m idea =
      Except.ok (dictSet m "plan" (Value.vdict [("ideas", Value.vlist [ideaRecord 1 idea])])) := by
  simp [addIdeaToProject, hplan]

/-- Value of `addIdeaToProject` when `plan` is a dict without `ideas`. -/
theorem addIdea_eq_newideas {m : Proj} {pf : List (String × Value)} {idea : String}
    (hplan : dictGet m "plan" = some (Value.vdict pf))
    (hideas : dictGet pf "ideas" = none) :
    addIdeaToProject m idea =
      Except.ok (dictSet m "plan" (Value.vdict (dictSet pf "ideas"
        (Value.vlist [ideaRecord 1 idea])))) := by
  simp [addIdeaToProject, hplan, hideas]

/-- Value of `addIdeaToProject` when `plan.ideas` is a list. -/
theorem addIdea_eq_append {m : Proj} {pf : List (String × Value)} {xs : List Value}
    {idea : String}
    (hplan : dictGet m "plan" = some (Value.vdict pf))
    (hideas : dictGet pf "ideas" = some (Value.vlist xs)) :
    addIdeaToProject m idea =
      Except.ok (dictSet m "plan" (Value.vdict (dictSet pf "ideas"
        (Value.vlist (xs ++ [ideaRecord (xs.length + 1) idea]))))) := by
  simp [addIdeaToProject, hplan, hideas]

/-- Value of `addCommentToProject` when `edit` is absent. -/
theorem addComment_eq_noedit {m : Proj} {commentText : String}
    (hedit : dictGet m "edit" = none) :
    addCommentToProject m commentText =
      Except.ok (dictSet m "edit"
        (Value.vdict [("suggestions", Value.vlist [commentRecord 1 commentText])])) := by
  simp [addCommentToProject, hedit]

/-- Value of `addCommentToProject` when `edit` is a dict without
`suggestions`. -/
theorem addComment_eq_newsuggestions {m : Proj} {ef : List (String × Value)}
    {commentText : String}
    (hedit : dictGet m "edit" = some (Value.vdict ef))
    (hsugg : dictGet ef "suggestions" = none) :
    addCommentToProject m commentText =
      Except.ok (dictSet m "edit" (Value.vdict (dictSet ef "suggestions"
        (Value.vlist [commentRecord 1 commentText])))) := by
  simp [addCommentToProject, hedit, hsugg]

/-- Value of `addCommentToProject` when `edit.suggestions` is a list. -/
theorem addComment_eq_append {m : Proj} {ef : List (String × Value)} {xs : List Value}
    {commentText : String}
    (hedit : dictGet m "edit" = some (Value.vdict ef))
    (hsugg : dictGet ef "suggestions" = some (Value.vlist xs)) :
    addCommentToProject m commentText =
      Except.ok (dictSet m "edit" (Value.vdict (dictSet ef "suggestions"
        (Value.vlist (xs ++ [commentRecord (xs.length + 1) commentText]))))) := by
  simp [addCommentToProject, hedit, hsugg]

/-- Value of `appendChat` when `chatHistory` is a list. -/
theorem appendChat_eq_present {m : Proj} {u a : String} {msgs : List Value}
    (hc : dictGet m "chatHistory" = some (Value.vlist msgs)) :
    appendChat m u a = Except.ok (dictSet m "chatHistory"
      (Value.vlist (msgs ++ [chatEntry "user" (Value.vstr u),
                             chatEntry "assistant" (Value.vstr a)]))) := by
  simp [appendChat, hasKey, hc]

/-- Value of `appendChat` when `chatHistory` is absent. -/
theorem appendChat_eq_absent {m : Proj} {u a : String}
    (hc : dictGet m "chatHistory" = none) :
    appendChat m u a = Except.ok (dictSet (dictSet m "chatHistory" (Value.vlist []))
      "chatHistory" (Value.vlist [chatEntry "user" (Value.vstr u),
                                  chatEntry "assistant" (Value.vstr a)])) := by
  simp [appendChat, hasKey, hc, dictGet_dictSet_self]

theorem addIdeaToProject_preserved {m m2 : Proj} {idea : String}
    (h : addIdeaToProject m idea = Except.ok m2) : projectPreserved m m2 := by
  have hne := addIdeaToProject_get_ne h
  refine ⟨fun k hk _ _ => hne k hk, ?_, ?_, ?_⟩
  · cases hplan : dictGet m "plan" with
    | none => trivial
    | some v =>
      cases v with
      | vdict pf =>
        cases hideas : dictGet pf "ideas" with
        | none =>
          rw [addIdea_eq_newideas hplan hideas] at h
          simp only [Except.ok.injEq] at h
          subst h
          rw [dictGet_dictSet_self]
          refine ⟨_, rfl, fun k hk => dictGet_dictSet_ne _ _ _ _ hk, ?_⟩
          rw [hideas]
          trivial
        | some w =>
          cases w with
          | vlist xs =>
            rw [addIdea_eq_append hplan hideas] at h
            simp only [Except.ok.injEq] at h
            subst h
            rw [dictGet_dictSet_self]
            refine ⟨_, rfl, fun k hk => dictGet_dictSet_ne _ _ _ _ hk, ?_⟩
            rw [hideas, dictGet_dictSet_self]
            exact ⟨_, rfl⟩
          | vstr s => simp [addIdeaToProject, hplan, hideas] at h
          | vdict g => simp [addIdeaToProject, hplan, hideas] at h
          | vnum n => simp [addIdeaToProject, hplan, hideas] at h
          | vbool b => simp [addIdeaToProject, hplan, hideas] at h
          | vnull => simp [addIdeaToProject, hplan, hideas] at h
      | vstr s =>
        unfold addIdeaToProject at h
        rw [hplan] at h
        exact Except.noConfusion h
      | vlist l =>
        unfold addIdeaToProject at h
        rw [hplan] at h
        exact Except.noConfusion h
      | vnum n =>
        unfold addIdeaToProject at h
        rw [hplan] at h
        exact Except.noConfusion h
      | vbool b =>
        unfold addIdeaToProject at h
        rw [hplan] at h
        exact Except.noConfusion h
      | vnull =>
        unfold addIdeaToProject at h
        rw [hplan] at h
        exact Except.noConfusion h
  · rw [hne "edit" (by decide)]
    exact subGrows_refl _ _
  · rw [hne "chatHistory" (by decide)]
    exact valGrows_refl _

theorem addCommentToProject_preserved {m m2 : Proj} {commentText : String}
    (h : addCommentToProject m commentText = Except.ok m2) : projectPreserved m m2 := by
  have hne := addCommentToProject_get_ne h
  refine ⟨fun k _ hk _ => hne k hk, ?_, ?_, ?_⟩
  · rw [hne "plan" (by decide)]
    exact subGrows_refl _ _
  · cases hedit : dictGet m "edit" with
    | none => trivial
    | some v =>
      cases v with
      | vdict ef =>
        cases hsugg : dictGet ef "suggestions" with
        | none =>
          rw [addComment_eq_newsuggestions hedit hsugg] at h
          simp only [Except.ok.injEq] at h
          subst h
          rw [dictGet_dictSet_self]
          refine ⟨_, rfl, fun k hk => dictGet_dictSet_ne _ _ _ _ hk, ?_⟩
          rw [hsugg]
          trivial
        | some w =>
          cases w with
          | vlist xs =>
            rw [addComment_eq_append hedit hsugg] at h
            simp only [Except.ok.injEq] at h
            subst h
            rw [dictGet_dictSet_self]
            refine ⟨_, rfl, fun k hk => dictGet_dictSet_ne _ _ _ _ hk, ?_⟩
            rw [hsugg, dictGet_dictSet_self]
            exact ⟨_, rfl⟩
          | vstr s => simp [addCommentToProject, hedit, hsugg] at h
          | vdict g => simp [addCommentToProject, hedit, hsugg] at h
          | vnum n => simp [addCommentToProject, hedit, hsugg] at h
          | vbool b => simp [addCommentToProject, hedit, hsugg] at h
          | vnull => simp [addCommentToProject, hedit, hsugg] at h
      | vstr s =>
        unfold addCommentToProject at h
        rw [hedit] at h
        exact Except.noConfusion h
      | vlist l =>
        unfold addCommentToProject at h
        rw [hedit] at h
        exact Except.noConfusion h
      | vnum n =>
        unfold addCommentToProject at h
        rw [hedit] at h
        exact Except.noConfusion h
      | vbool b =>
        unfold addCommentToProject at h
        rw [hedit] at h
        exact Except.noConfusion h
      | vnull =>
        unfold addCommentToProject at h
        rw [hedit] at h
        exact Except.noConfusion h
  · rw [hne "chatHistory" (by decide)]
    exact valGrows_refl _

/-- Eliminate an `if`-guarded `Except.ok` equation: either the guard held
and the state is unchanged, or the guarded computation produced the
result. -/
theorem ite_ok_elim {c : Prop} [Decidable c] {α : Type} {m m2 : α}
    {f : Except String α} {P : Prop}
    (h : (if c then Except.ok m else f) = Except.ok m2)
    (h1 : m = m2 → P) (h2 : f = Except.ok m2 → P) : P := by
  by_cases hc : c
  · rw [if_pos hc] at h
    exact h1 (Except.ok.inj h)
  · rw [if_neg hc] at h
    exact h2 h

theorem applyStep_preserved {m m2 : Proj} {st : Step}
    (h : applyStep m st = Except.ok m2) : projectPreserved m m2 := by
  unfold applyStep at h
  repeat' split at h
  all_goals try (exact Except.noConfusion h)
  all_goals try simp only [Except.ok.injEq] at h
  all_goals first
    | (subst h; exact projectPreserved_refl m)
    | exact ite_ok_elim h (fun he => he ▸ projectPreserved_refl m)
        (fun h2 => addIdeaToProject_preserved h2)
    | exact ite_ok_elim h (fun he => he ▸ projectPreserved_refl m)
        (fun h2 => ite_ok_elim h2 (fun he => he ▸ projectPreserved_refl m)
          (fun h3 => addCommentToProject_preserved h3))

theorem applyStep_get_chat {m m2 : Proj} {st : Step}
    (h : applyStep m st = Except.ok m2) :
    dictGet m2 "chatHistory" = dictGet m "chatHistory" := by
  unfold applyStep at h
  repeat' split at h
  all_goals try (exact Except.noConfusion h)
  all_goals try simp only [Except.ok.injEq] at h
  all_goals first
    | (subst h; rfl)
    | exact ite_ok_elim h (fun he => he ▸ rfl)
        (fun h2 => addIdeaToProject_get_ne h2 "chatHistory" (by decide))
    | exact ite_ok_elim h (fun he => he ▸ rfl)
        (fun h2 => ite_ok_elim h2 (fun he => he ▸ rfl)
          (fun h3 => addCommentToProject_get_ne h3 "chatHistory" (by decide)))
theorem applyStepsGo_preserved : ∀ (steps : List Step) (m : Proj),
    projectPreserved m (applyStepsGo m steps).2 := by
  intro steps
  induction steps with
  | nil => intro m; exact projectPreserved_refl m
  | cons st rest ih =>
    intro m
    unfold applyStepsGo
    cases hst : applyStep m st with
    | ok m2 => exact projectPreserved_trans (applyStep_preserved hst) (ih m2)
    | error e => exact projectPreserved_refl m

theorem applyStepsGo_ok_eq : ∀ (steps : List Step) (m m2 : Proj),
    (applyStepsGo m steps).1 = Except.ok m2 → (applyStepsGo m steps).2 = m2 := by
  intro steps
  induction steps with
  | nil =>
    intro m m2 h
    simp only [applyStepsGo, Except.ok.injEq] at h
    simpa [applyStepsGo] using h
  | cons st rest ih =>
    intro m m2 h
    unfold applyStepsGo at h ⊢
    cases hst : applyStep m st with
    | ok m3 =>
      rw [hst] at h
      exact ih m3 m2 h
    | error e =>
      rw [hst] at h
      simp at h

theorem applyStepsGo_get_chat : ∀ (steps : List Step) (m m2 : Proj),
    (applyStepsGo m steps).1 = Except.ok m2 →
    dictGet m2 "chatHistory" = dictGet m "chatHistory" := by
  intro steps
  induction steps with
  | nil =>
    intro m m2 h
    simp only [applyStepsGo, Except.ok.injEq] at h
    rw [h]
  | cons st rest ih =>
    intro m m2 h
    unfold applyStepsGo at h
    cases hst : applyStep m st with
    | ok m3 =>
      rw [hst] at h
      rw [ih m3 m2 h, applyStep_get_chat hst]
    | error e =>
      rw [hst] at h
      simp at h

theorem applyToolCalls_preserved (project : Proj) (result : AgentResult) :
    projectPreserved project (applyToolCallsToProject project result).2 := by
  unfold applyToolCallsToProject
  cases result.intermediate_steps with
  | none => exact projectPreserved_refl project
  | some steps => exact applyStepsGo_preserved steps project

theorem applyToolCalls_ok_eq {project m2 : Proj} {result : AgentResult}
    (h : (applyToolCallsToProject project result).1 = Except.ok m2) :
    (applyToolCallsToProject project result).2 = m2 := by
  unfold applyToolCallsToProject at h ⊢
  cases hsteps : result.intermediate_steps with
  | none =>
    rw [hsteps] at h
    simp only [Except.ok.injEq] at h
    simpa using h
  | some steps =>
    rw [hsteps] at h
    exact applyStepsGo_ok_eq steps project m2 h

theorem applyToolCalls_get_chat {project m2 : Proj} {result : AgentResult}
    (h : (applyToolCallsToProject project result).1 = Except.ok m2) :
    dictGet m2 "chatHistory" = dictGet project "chatHistory" := by
  unfold applyToolCallsToProject at h
  cases hsteps : result.intermediate_steps with
  | none =>
    rw [hsteps] at h
    simp only [Except.ok.injEq] at h
    rw [h]
  | some steps =>
    rw [hsteps] at h
    exact applyStepsGo_get_chat steps project m2 h

theorem appendChat_preserved {m m2 : Proj} {u a : String}
    (h : appendChat m u a = Except.ok m2) : projectPreserved m m2 := by
  cases hc : dictGet m "chatHistory" with
  | none =>
    rw [appendChat_eq_absent hc] at h
    simp only [Except.ok.injEq] at h
    subst h
    refine ⟨fun k _ _ hk3 => ?_, ?_, ?_, ?_⟩
    · rw [dictGet_dictSet_ne _ _ _ _ hk3, dictGet_dictSet_ne _ _ _ _ hk3]
    · rw [dictGet_dictSet_ne _ _ _ _ (by decide), dictGet_dictSet_ne _ _ _ _ (by decide)]
      exact subGrows_refl _ _
    · rw [dictGet_dictSet_ne _ _ _ _ (by decide), dictGet_dictSet_ne _ _ _ _ (by decide)]
      exact subGrows_refl _ _
    · rw [hc]
      trivial
  | some v =>
    cases v with
    | vlist msgs =>
      rw [appendChat_eq_present hc] at h
      simp only [Except.ok.injEq] at h
      subst h
      refine ⟨fun k _ _ hk3 => dictGet_dictSet_ne _ _ _ _ hk3, ?_, ?_, ?_⟩
      · rw [dictGet_dictSet_ne _ _ _ _ (by decide)]
        exact subGrows_refl _ _
      · rw [dictGet_dictSet_ne _ _ _ _ (by decide)]
        exact subGrows_refl _ _
      · rw [hc, dictGet_dictSet_self]
        exact ⟨_, rfl⟩
    | vstr s => simp [appendChat, hasKey, hc] at h
    | vdict f => simp [appendChat, hasKey, hc] at h
    | vnum n => simp [appendChat, hasKey, hc] at h
    | vbool b => simp [appendChat, hasKey, hc] at h
    | vnull => simp [appendChat, hasKey, hc] at h

theorem syncBack_preserved {p m : Proj} (h : projectPreserved p m) :
    projectPreserved p (syncBack p m) := by
  obtain ⟨he, hplan, hedit, hchat⟩ := h
  refine ⟨fun k hk1 hk2 hk3 => ?_, ?_, ?_, ?_⟩
  · rw [dictGet_syncBack, he k hk1 hk2 hk3]
    cases hp : dictGet p k <;> simp [hp]
  · rw [dictGet_syncBack]
    cases hp : dictGet p "plan" with
    | none => trivial
    | some v =>
      rw [hp] at hplan
      cases v with
      | vdict pf =>
        obtain ⟨pf2, hm, hkeys, hgrow⟩ := hplan
        rw [hm]
        exact ⟨pf2, rfl, hkeys, hgrow⟩
      | vstr s => rw [hplan]; exact rfl
      | vnum n => rw [hplan]; exact rfl
      | vbool x => rw [hplan]; exact rfl
      | vnull => rw [hplan]; exact rfl
      | vlist l => rw [hplan]; exact rfl
  · rw [dictGet_syncBack]
    cases hp : dictGet p "edit" with
    | none => trivial
    | some v =>
      rw [hp] at hedit
      cases v with
      | vdict ef =>
        obtain ⟨ef2, hm, hkeys, hgrow⟩ := hedit
        rw [hm]
        exact ⟨ef2, rfl, hkeys, hgrow⟩
      | vstr s => rw [hedit]; exact rfl
      | vnum n => rw [hedit]; exact rfl
      | vbool x => rw [hedit]; exact rfl
      | vnull => rw [hedit]; exact rfl
      | vlist l => rw [hedit]; exact rfl
  · rw [dictGet_syncBack]
    cases hp : dictGet p "chatHistory" with
    | none => trivial
    | some v =>
      rw [hp] at hchat
      cases v with
      | vlist msgs =>
        obtain ⟨ys, hm⟩ := hchat
        rw [hm]
        exact ⟨ys, rfl⟩
      | vstr s => rw [hchat]; exact rfl
      | vnum n => rw [hchat]; exact rfl
      | vbool x => rw [hchat]; exact rfl
      | vnull => rw [hchat]; exact rfl
      | vdict f => rw [hchat]; exact rfl

/-!
## Phase resolution lemmas
-/

theorem getCurrentPhase_mem (p : Proj) (s : String)
    (h : getCurrentPhase p = Except.ok s) : agentKeys.contains s = true := by
  unfold getCurrentPhase at h
  split at h
  · simp only [Except.ok.injEq] at h
    subst h
    split
    · rename_i hc
      exact hc
    · decide
  · exact Except.noConfusion h
  · exact Except.noConfusion h
  · simp only [Except.ok.injEq] at h
    subst h
    decide

/-!
## Claim theorems
-/

/-- Claim C8: every mutation `process_chat_message` performs is
non-destructive.  In the returned project (on the success path and on the
error path alike), every field of the input project other than `plan`,
`edit` and `chatHistory` is unchanged; a `plan`/`edit` dict keeps all its
fields other than `ideas`/`suggestions` unchanged; the input's existing
`plan.ideas`, `edit.suggestions` and `chatHistory` lists reappear as
prefixes of the output lists (elements appended at the end only, nothing
reordered or deleted), so the chat history never shrinks. -/
theorem claim_c8_non_destructive (oracle : AgentOutcome) (u : String) (p : Proj) :
    projectPreserved p (processChatMessage oracle u p).project := by
  cases hext : extractChatHistory p with
  | error e =>
    simp only [processChatMessage, hext]
    exact projectPreserved_refl p
  | ok hist =>
    cases hph : getCurrentPhase p with
    | error e =>
      simp only [processChatMessage, hext, hph]
      exact projectPreserved_refl p
    | ok phase =>
      by_cases hmem : phase ∈ agentKeys
      · cases oracle with
        | raise e =>
          simp [processChatMessage, hext, hph, hmem]
          exact projectPreserved_refl p
        | ok result =>
          rcases happ : applyToolCallsToProject p result with ⟨res, mst⟩
          have h1 := applyToolCalls_preserved p result
          rw [happ] at h1
          cases res with
          | error e =>
            simp [processChatMessage, hext, hph, hmem, happ]
            exact syncBack_preserved h1
          | ok m =>
            have hfst : (applyToolCallsToProject p result).1 = Except.ok m := by
              rw [happ]
            have hmeq : mst = m := by
              have h2 := applyToolCalls_ok_eq hfst
              rw [happ] at h2
              exact h2
            subst hmeq
            cases happ2 : appendChat mst u
                (result.output.getD "I\x27m sorry, I couldn\x27t process your request.") with
            | error e2 =>
              simp [processChatMessage, hext, hph, hmem, happ, happ2]
              exact syncBack_preserved h1
            | ok m2 =>
              simp [processChatMessage, hext, hph, hmem, happ, happ2]
              exact projectPreserved_trans h1 (appendChat_preserved happ2)
      · simp [processChatMessage, hext, hph, hmem]
        exact projectPreserved_refl p

/-- Claim C10: for every project dict, whenever `_get_current_phase` returns
a phase, that phase is one of the three registered keys of `self.agents`, so
the lookup `self.agents[current_phase]` in `process_chat_message` cannot
fail with a missing-key error. -/
theorem claim_c10_agent_lookup_safe (p : Proj) (s : String)
    (h : getCurrentPhase p = Except.ok s) :
    s ∈ agentKeys := by
  have := getCurrentPhase_mem p s h
  simpa using this

/-- Witness for C10 at a concrete input: the empty project resolves to
`plan_organize`, which is a registered agent key. -/
theorem claim_c10_witness : "plan_organize" ∈ agentKeys :=
  claim_c10_agent_lookup_safe [] "plan_organize" rfl

/-- Witness for C8 at a concrete input: a successful run with one idea tool
call over a small project. -/
theorem claim_c8_witness :
    projectPreserved
      [("title", Value.vstr "Essay"), ("chatHistory", Value.vlist [])]
      (processChatMessage
        (AgentOutcome.ok ⟨some "Noted!",
          some [Step.tup ⟨some "add_idea", ToolInput.args [("idea", "bees")]⟩ "Added idea: bees"]⟩)
        "note bees"
        [("title", Value.vstr "Essay"), ("chatHistory", Value.vlist [])]).project :=
  claim_c8_non_destructive
    (AgentOutcome.ok ⟨some "Noted!",
      some [Step.tup ⟨some "add_idea", ToolInput.args [("idea", "bees")]⟩ "Added idea: bees"]⟩)
    "note bees"
    [("title", Value.vstr "Essay"), ("chatHistory", Value.vlist [])]

/-- Claim C1: on every successful call of `process_chat_message`, the
returned project's `chatHistory` is the input project's `chatHistory`
(the empty list when the key was absent) extended by exactly the two entries
`{role: "user", content: user_input}` and `{role: "assistant", content:
<returned reply>}`, in that order — in particular its length is the input
length plus exactly 2. -/
theorem claim_c1_chat_history (oracle : AgentOutcome) (u : String) (p : Proj)
    (hok : (processChatMessage oracle u p).ok = true) :
    ∃ xs, (dictGet p "chatHistory" = some (Value.vlist xs) ∨
           (dictGet p "chatHistory" = none ∧ xs = [])) ∧
      dictGet (processChatMessage oracle u p).project "chatHistory" =
        some (Value.vlist (xs ++
          [chatEntry "user" (Value.vstr u),
           chatEntry "assistant" (Value.vstr (processChatMessage oracle u p).reply)])) ∧
      (xs ++ [chatEntry "user" (Value.vstr u),
              chatEntry "assistant" (Value.vstr (processChatMessage oracle u p).reply)]).length
        = xs.length + 2 := by
  cases hext : extractChatHistory p with
  | error e => simp [processChatMessage, hext] at hok
  | ok hist =>
    cases hph : getCurrentPhase p with
    | error e => simp [processChatMessage, hext, hph] at hok
    | ok phase =>
      by_cases hmem : phase ∈ agentKeys
      · cases oracle with
        | raise e => simp [processChatMessage, hext, hph, hmem] at hok
        | ok result =>
          rcases happ : applyToolCallsToProject p result with ⟨res, mst⟩
          cases res with
          | error e => simp [processChatMessage, hext, hph, hmem, happ] at hok
          | ok m =>
            have hfst : (applyToolCallsToProject p result).1 = Except.ok m := by
              rw [happ]
            have hchat : dictGet m "chatHistory" = dictGet p "chatHistory" :=
              applyToolCalls_get_chat hfst
            cases hc : dictGet p "chatHistory" with
            | none =>
              have hc2 : dictGet m "chatHistory" = none := by rw [hchat, hc]
              have happ2 := appendChat_eq_absent
                (u := u)
                (a := result.output.getD "I\x27m sorry, I couldn\x27t process your request.")
                hc2
              refine ⟨[], Or.inr ⟨rfl, rfl⟩, ?_, by simp⟩
              simp [processChatMessage, hext, hph, hmem, happ, happ2,
                dictGet_dictSet_self]
            | some v =>
              cases v with
              | vlist msgs =>
                have hc2 : dictGet m "chatHistory" = some (Value.vlist msgs) := by
                  rw [hchat, hc]
                have happ2 := appendChat_eq_present
                  (u := u)
                  (a := result.output.getD "I\x27m sorry, I couldn\x27t process your request.")
                  hc2
                refine ⟨msgs, Or.inl rfl, ?_, by simp⟩
                simp [processChatMessage, hext, hph, hmem, happ, happ2,
                  dictGet_dictSet_self]
              | vstr s =>
                have hc2 : dictGet m "chatHistory" = some (Value.vstr s) := by
                  rw [hchat, hc]
                simp [processChatMessage, hext, hph, hmem, happ, appendChat,
                  hasKey, hc2] at hok
              | vnum n =>
                have hc2 : dictGet m "chatHistory" = some (Value.vnum n) := by
                  rw [hchat, hc]
                simp [processChatMessage, hext, hph, hmem, happ, appendChat,
                  hasKey, hc2] at hok
              | vbool b =>
                have hc2 : dictGet m "chatHistory" = some (Value.vbool b) := by
                  rw [hchat, hc]
                simp [processChatMessage, hext, hph, hmem, happ, appendChat,
                  hasKey, hc2] at hok
              | vnull =>
                have hc2 : dictGet m "chatHistory" = some Value.vnull := by
                  rw [hchat, hc]
                simp [processChatMessage, hext, hph, hmem, happ, appendChat,
                  hasKey, hc2] at hok
              | vdict f =>
                have hc2 : dictGet m "chatHistory" = some (Value.vdict f) := by
                  rw [hchat, hc]
                simp [processChatMessage, hext, hph, hmem, happ, appendChat,
                  hasKey, hc2] at hok
      · simp [processChatMessage, hext, hph, hmem] at hok

/-- Witness for C1 at a concrete input: a successful run with an empty chat
history gains exactly the user and assistant entries. -/
theorem claim_c1_witness :
    ∃ xs, (dictGet [("chatHistory", Value.vlist [])] "chatHistory" = some (Value.vlist xs) ∨
           (dictGet [("chatHistory", Value.vlist [])] "chatHistory" = none ∧ xs = [])) ∧
      dictGet (processChatMessage (AgentOutcome.ok ⟨some "Sounds good!", none⟩) "hello"
          [("chatHistory", Value.vlist [])]).project "chatHistory" =
        some (Value.vlist (xs ++
          [chatEntry "user" (Value.vstr "hello"),
           chatEntry "assistant" (Value.vstr
             (processChatMessage (AgentOutcome.ok ⟨some "Sounds good!", none⟩) "hello"
               [("chatHistory", Value.vlist [])]).reply)])) ∧
      (xs ++ [chatEntry "user" (Value.vstr "hello"),
              chatEntry "assistant" (Value.vstr
                (processChatMessage (AgentOutcome.ok ⟨some "Sounds good!", none⟩) "hello"
                  [("chatHistory", Value.vlist [])]).reply)]).length = xs.length + 2 :=
  claim_c1_chat_history (AgentOutcome.ok ⟨some "Sounds good!", none⟩) "hello"
    [("chatHistory", Value.vlist [])] rfl

/-- Counterexample to C2 as stated: when the input project carries
`chatHistory: ""` (an empty string, falsy, so history extraction skips it)
and a `plan.ideas` list, a successful model call with one `add_idea` tool
invocation appends the idea in place into the shared `plan` substructure,
and only afterwards does `modified_project["chatHistory"].append` raise
`AttributeError`.  The `except` clause then returns the caller's project
object, which now differs from the input value: the already-applied idea
append is observable on the error path. -/
theorem claim_c2_counterexample :
    (processChatMessage
        (AgentOutcome.ok ⟨some "Got it!",
          some [Step.tup ⟨some "add_idea", ToolInput.args [("idea", "bees")]⟩ "Added idea: bees"]⟩)
        "add it"
        [("chatHistory", Value.vstr ""),
         ("plan", Value.vdict [("ideas", Value.vlist [])])]).ok = false ∧
    (processChatMessage
        (AgentOutcome.ok ⟨some "Got it!",
          some [Step.tup ⟨some "add_idea", ToolInput.args [("idea", "bees")]⟩ "Added idea: bees"]⟩)
        "add it"
        [("chatHistory", Value.vstr ""),
         ("plan", Value.vdict [("ideas", Value.vlist [])])]).project ≠
      [("chatHistory", Value.vstr ""),
       ("plan", Value.vdict [("ideas", Value.vlist [])])] := by
  constructor
  · rfl
  · intro h
    have h1 : (processChatMessage
        (AgentOutcome.ok ⟨some "Got it!",
          some [Step.tup ⟨some "add_idea", ToolInput.args [("idea", "bees")]⟩ "Added idea: bees"]⟩)
        "add it"
        [("chatHistory", Value.vstr ""),
         ("plan", Value.vdict [("ideas", Value.vlist [])])]).project =
        [("chatHistory", Value.vstr ""),
         ("plan", Value.vdict [("ideas",
           Value.vlist [Value.vdict [("id", Value.vstr "ai_idea_1"),
                                     ("content", Value.vstr "bees"),
                                     ("location", Value.vstr "brainstorm"),
                                     ("aiGenerated", Value.vbool true)]])])] := rfl
    rw [h1] at h
    simp at h

/-- Claim C2 amended: every exception in the `try` block is caught and
turned into a reply embedding the exception description, returned with the
caller's project object.  When the exception precedes every tool side
effect — in particular when the model call itself fails — the returned
project equals the input project; tool side effects already applied in
place before a later exception, however, remain visible (see the
counterexample). -/
theorem claim_c2_error_returns_input (u : String) (p : Proj) (e : String)
    (hist : List LCMessage) (phase : String)
    (hext : extractChatHistory p = Except.ok hist)
    (hph : getCurrentPhase p = Except.ok phase) :
    processChatMessage (AgentOutcome.raise e) u p =
      ⟨errorReplyLead ++ e, p, false⟩ := by
  have hmem : phase ∈ agentKeys := by
    have := getCurrentPhase_mem p phase hph
    simpa using this
  simp [processChatMessage, hext, hph, hmem]

/-- Witness for the amended C2: a failing model call over a concrete
project returns the reply embedding the exception text and the project
unchanged. -/
theorem claim_c2_witness :
    processChatMessage (AgentOutcome.raise "connection refused") "hi"
        [("title", Value.vstr "T")] =
      ⟨errorReplyLead ++ "connection refused", [("title", Value.vstr "T")], false⟩ :=
  claim_c2_error_returns_input "hi" [("title", Value.vstr "T")] "connection refused"
    [] "plan_organize" rfl rfl

/-- Claim C3: applying an agent result consisting of an `add_idea` tool
invocation with a provided, non-empty `idea` argument succeeds, creates
`plan.ideas` as an empty list first when absent, and appends exactly one
record `{id: "ai_idea_" + (new length), content: idea, location:
"brainstorm", aiGenerated: true}`, so the list grows by exactly 1. -/
theorem claim_c3_add_idea (p : Proj) (out : Option String) (idea obs : String)
    (hshape : planShapeOk p = true) (hidea : idea ≠ "") :
    ∃ m2 pf2,
      (applyToolCallsToProject p ⟨out,
        some [Step.tup ⟨some "add_idea", ToolInput.args [("idea", idea)]⟩ obs]⟩).1 =
          Except.ok m2 ∧
      dictGet m2 "plan" = some (Value.vdict pf2) ∧
      dictGet pf2 "ideas" =
        some (Value.vlist (ideasOf p ++ [ideaRecord ((ideasOf p).length + 1) idea])) ∧
      ideasOf m2 = ideasOf p ++ [ideaRecord ((ideasOf p).length + 1) idea] ∧
      (ideasOf m2).length = (ideasOf p).length + 1 := by
  have hstep : applyStep p (Step.tup ⟨some "add_idea", ToolInput.args [("idea", idea)]⟩ obs) =
      addIdeaToProject p idea := by
    simp [applyStep, argsGet, hidea]
  cases hplan : dictGet p "plan" with
  | none =>
    refine ⟨dictSet p "plan" (Value.vdict [("ideas", Value.vlist [ideaRecord 1 idea])]),
      [("ideas", Value.vlist [ideaRecord 1 idea])], ?_, ?_, ?_, ?_, ?_⟩
    · simp [applyToolCallsToProject, applyStepsGo, hstep, addIdea_eq_noplan hplan]
    · simp [dictGet_dictSet_self]
    · simp [ideasOf, dictGet, hplan]
    · simp [ideasOf, dictGet, dictGet_dictSet_self, hplan]
    · simp [ideasOf, dictGet, dictGet_dictSet_self, hplan]
  | some v =>
    cases v with
    | vdict pf =>
      cases hideas : dictGet pf "ideas" with
      | none =>
        refine ⟨dictSet p "plan" (Value.vdict (dictSet pf "ideas" (Value.vlist [ideaRecord 1 idea]))),
          dictSet pf "ideas" (Value.vlist [ideaRecord 1 idea]), ?_, ?_, ?_, ?_, ?_⟩
        · simp [applyToolCallsToProject, applyStepsGo, hstep,
            addIdea_eq_newideas hplan hideas]
        · simp [dictGet_dictSet_self]
        · simp [ideasOf, dictGet_dictSet_self, hplan, hideas]
        · simp [ideasOf, dictGet_dictSet_self, hplan, hideas]
        · simp [ideasOf, dictGet_dictSet_self, hplan, hideas]
      | some w =>
        cases w with
        | vlist xs =>
          refine ⟨dictSet p "plan" (Value.vdict (dictSet pf "ideas"
              (Value.vlist (xs ++ [ideaRecord (xs.length + 1) idea])))),
            dictSet pf "ideas"
              (Value.vlist (xs ++ [ideaRecord (xs.length + 1) idea])), ?_, ?_, ?_, ?_, ?_⟩
          · simp [applyToolCallsToProject, applyStepsGo, hstep,
              addIdea_eq_append hplan hideas]
          · simp [dictGet_dictSet_self]
          · simp [ideasOf, dictGet_dictSet_self, hplan, hideas]
          · simp [ideasOf, dictGet_dictSet_self, hplan, hideas]
          · simp [ideasOf, dictGet_dictSet_self, hplan, hideas]
        | vstr s => simp [planShapeOk, hplan, hideas] at hshape
        | vdict g => simp [planShapeOk, hplan, hideas] at hshape
        | vnum n => simp [planShapeOk, hplan, hideas] at hshape
        | vbool b => simp [planShapeOk, hplan, hideas] at hshape
        | vnull => simp [planShapeOk, hplan, hideas] at hshape
    | vstr s => simp [planShapeOk, hplan] at hshape
    | vlist l => simp [planShapeOk, hplan] at hshape
    | vnum n => simp [planShapeOk, hplan] at hshape
    | vbool b => simp [planShapeOk, hplan] at hshape
    | vnull => simp [planShapeOk, hplan] at hshape

/-- Witness for C3 at a concrete input: one `add_idea` call over a project
with one existing idea appends `ai_idea_2`. -/
theorem claim_c3_witness :
    ∃ m2 pf2,
      (applyToolCallsToProject
        [("plan", Value.vdict [("ideas", Value.vlist [Value.vstr "old"])])]
        ⟨some "ok",
          some [Step.tup ⟨some "add_idea", ToolInput.args [("idea", "bees")]⟩ "obs"]⟩).1 =
          Except.ok m2 ∧
      dictGet m2 "plan" = some (Value.vdict pf2) ∧
      dictGet pf2 "ideas" =
        some (Value.vlist
          (ideasOf [("plan", Value.vdict [("ideas", Value.vlist [Value.vstr "old"])])] ++
           [ideaRecord ((ideasOf [("plan", Value.vdict [("ideas", Value.vlist [Value.vstr "old"])])]).length + 1) "bees"])) ∧
      ideasOf m2 =
        ideasOf [("plan", Value.vdict [("ideas", Value.vlist [Value.vstr "old"])])] ++
          [ideaRecord ((ideasOf [("plan", Value.vdict [("ideas", Value.vlist [Value.vstr "old"])])]).length + 1) "bees"] ∧
      (ideasOf m2).length =
        (ideasOf [("plan", Value.vdict [("ideas", Value.vlist [Value.vstr "old"])])]).length + 1 :=
  claim_c3_add_idea [("plan", Value.vdict [("ideas", Value.vlist [Value.vstr "old"])])]
    (some "ok") "bees" "obs" rfl (by decide)

/-- Claim C4: applying an agent result consisting of an `add_comment` tool
invocation with provided, non-empty `content` and `comment_text` arguments
succeeds, creates `edit.suggestions` as an empty list first when absent, and
appends exactly one record `{id: "ai_comment_" + (new length), content:
comment_text, type: "comment", aiGenerated: true}`, so the list grows by
exactly 1. -/
theorem claim_c4_add_comment (p : Proj) (out : Option String)
    (content commentText obs : String)
    (hshape : editShapeOk p = true) (hcontent : content ≠ "") (hct : commentText ≠ "") :
    ∃ m2 ef2,
      (applyToolCallsToProject p ⟨out,
        some [Step.tup ⟨some "add_comment",
          ToolInput.args [("content", content), ("comment_text", commentText)]⟩ obs]⟩).1 =
          Except.ok m2 ∧
      dictGet m2 "edit" = some (Value.vdict ef2) ∧
      dictGet ef2 "suggestions" =
        some (Value.vlist (suggestionsOf p ++
          [commentRecord ((suggestionsOf p).length + 1) commentText])) ∧
      suggestionsOf m2 = suggestionsOf p ++
        [commentRecord ((suggestionsOf p).length + 1) commentText] ∧
      (suggestionsOf m2).length = (suggestionsOf p).length + 1 := by
  have hstep : applyStep p (Step.tup ⟨some "add_comment",
      ToolInput.args [("content", content), ("comment_text", commentText)]⟩ obs) =
      addCommentToProject p commentText := by
    simp [applyStep, argsGet, hcontent, hct]
  cases hedit : dictGet p "edit" with
  | none =>
    refine ⟨dictSet p "edit" (Value.vdict [("suggestions", Value.vlist [commentRecord 1 commentText])]),
      [("suggestions", Value.vlist [commentRecord 1 commentText])], ?_, ?_, ?_, ?_, ?_⟩
    · simp [applyToolCallsToProject, applyStepsGo, hstep, addComment_eq_noedit hedit]
    · simp [dictGet_dictSet_self]
    · simp [suggestionsOf, dictGet, hedit]
    · simp [suggestionsOf, dictGet, dictGet_dictSet_self, hedit]
    · simp [suggestionsOf, dictGet, dictGet_dictSet_self, hedit]
  | some v =>
    cases v with
    | vdict ef =>
      cases hsugg : dictGet ef "suggestions" with
      | none =>
        refine ⟨dictSet p "edit" (Value.vdict (dictSet ef "suggestions"
            (Value.vlist [commentRecord 1 commentText]))),
          dictSet ef "suggestions" (Value.vlist [commentRecord 1 commentText]),
          ?_, ?_, ?_, ?_, ?_⟩
        · simp [applyToolCallsToProject, applyStepsGo, hstep,
            addComment_eq_newsuggestions hedit hsugg]
        · simp [dictGet_dictSet_self]
        · simp [suggestionsOf, dictGet_dictSet_self, hedit, hsugg]
        · simp [suggestionsOf, dictGet_dictSet_self, hedit, hsugg]
        · simp [suggestionsOf, dictGet_dictSet_self, hedit, hsugg]
      | some w =>
        cases w with
        | vlist xs =>
          refine ⟨dictSet p "edit" (Value.vdict (dictSet ef "suggestions"
              (Value.vlist (xs ++ [commentRecord (xs.length + 1) commentText])))),
            dictSet ef "suggestions"
              (Value.vlist (xs ++ [commentRecord (xs.length + 1) commentText])),
            ?_, ?_, ?_, ?_, ?_⟩
          · simp [applyToolCallsToProject, applyStepsGo, hstep,
              addComment_eq_append hedit hsugg]
          · simp [dictGet_dictSet_self]
          · simp [suggestionsOf, dictGet_dictSet_self, hedit, hsugg]
          · simp [suggestionsOf, dictGet_dictSet_self, hedit, hsugg]
          · simp [suggestionsOf, dictGet_dictSet_self, hedit, hsugg]
        | vstr s => simp [editShapeOk, hedit, hsugg] at hshape
        | vdict g => simp [editShapeOk, hedit, hsugg] at hshape
        | vnum n => simp [editShapeOk, hedit, hsugg] at hshape
        | vbool b => simp [editShapeOk, hedit, hsugg] at hshape
        | vnull => simp [editShapeOk, hedit, hsugg] at hshape
    | vstr s => simp [editShapeOk, hedit] at hshape
    | vlist l => simp [editShapeOk, hedit] at hshape
    | vnum n => simp [editShapeOk, hedit] at hshape
    | vbool b => simp [editShapeOk, hedit] at hshape
    | vnull => simp [editShapeOk, hedit] at hshape

/-- Witness for C4 at a concrete input: one `add_comment` call over a
project without an `edit` section creates it and appends `ai_comment_1`. -/
theorem claim_c4_witness :
    ∃ m2 ef2,
      (applyToolCallsToProject [("title", Value.vstr "T")]
        ⟨some "ok",
          some [Step.tup ⟨some "add_comment",
            ToolInput.args [("content", "<p>x</p>"), ("comment_text", "tighten this")]⟩ "obs"]⟩).1 =
          Except.ok m2 ∧
      dictGet m2 "edit" = some (Value.vdict ef2) ∧
      dictGet ef2 "suggestions" =
        some (Value.vlist (suggestionsOf [("title", Value.vstr "T")] ++
          [commentRecord ((suggestionsOf [("title", Value.vstr "T")]).length + 1) "tighten this"])) ∧
      suggestionsOf m2 = suggestionsOf [("title", Value.vstr "T")] ++
        [commentRecord ((suggestionsOf [("title", Value.vstr "T")]).length + 1) "tighten this"] ∧
      (suggestionsOf m2).length = (suggestionsOf [("title", Value.vstr "T")]).length + 1 :=
  claim_c4_add_comment [("title", Value.vstr "T")] (some "ok") "<p>x</p>" "tighten this" "obs"
    rfl (by decide) (by decide)

/-- Counterexample to C5 as stated: a project whose `currentPhase` holds a
list — a value that is "not one of plan_organize, write, edit_revise" — does
not resolve to `plan_organize`: the membership test `current_phase not in
self.system_prompts` hashes the value and raises `TypeError: unhashable
type` instead. -/
theorem claim_c5_counterexample :
    getCurrentPhase [("currentPhase", Value.vlist [])] =
      Except.error "unhashable type: \x27list\x27" ∧
    getCurrentPhase [("currentPhase", Value.vlist [])] ≠
      Except.ok "plan_organize" := by
  constructor
  · rfl
  · intro h
    rw [show getCurrentPhase [("currentPhase", Value.vlist [])] =
        Except.error "unhashable type: \x27list\x27" from rfl] at h
    exact Except.noConfusion h

/-- Claim C5 amended: for every project whose `currentPhase` is absent or
holds a *hashable* unrecognized value (a string outside the three phase
keys, a number, a boolean, or null), phase resolution returns
`plan_organize`; and resolution never writes to the project — viewed as a
procedure it returns the project argument unchanged.  (List- or dict-valued
`currentPhase` instead raises `TypeError`, per the counterexample.) -/
theorem claim_c5_phase_default (p : Proj)
    (h : unrecognizedHashablePhase (dictGet p "currentPhase") = true) :
    getCurrentPhase p = Except.ok "plan_organize" ∧
    (getCurrentPhaseProc p).2 = p := by
  refine ⟨?_, rfl⟩
  cases hv : dictGet p "currentPhase" with
  | none => simp [getCurrentPhase, hv]
  | some v =>
    rw [hv] at h
    cases v with
    | vstr s =>
      have hs : s ∉ systemPromptKeys := by
        simpa [unrecognizedHashablePhase] using h
      simp [getCurrentPhase, hv, hs]
    | vnum n => simp [getCurrentPhase, hv]
    | vbool b => simp [getCurrentPhase, hv]
    | vnull => simp [getCurrentPhase, hv]
    | vlist l => simp [unrecognizedHashablePhase] at h
    | vdict f => simp [unrecognizedHashablePhase] at h

/-- Witness for the amended C5: the unrecognized string phase `"revise"`
resolves to `plan_organize` and leaves the project untouched. -/
theorem claim_c5_witness :
    getCurrentPhase [("currentPhase", Value.vstr "revise")] = Except.ok "plan_organize" ∧
    (getCurrentPhaseProc [("currentPhase", Value.vstr "revise")]).2 =
      [("currentPhase", Value.vstr "revise")] :=
  claim_c5_phase_default [("currentPhase", Value.vstr "revise")] (by decide)

theorem applyStep_missing {st : Step} (hm : missingArgStep st = true) (m : Proj) :
    applyStep m st = Except.ok m := by
  cases st with
  | nonTup d => simp [missingArgStep] at hm
  | tup action obs =>
    obtain ⟨tool, ti⟩ := action
    cases tool with
    | none => simp [missingArgStep] at hm
    | some t =>
      cases ti with
      | rawStr s => simp [missingArgStep] at hm
      | args kwargs =>
        by_cases h1 : t = "add_idea"
        · subst h1
          simp only [missingArgStep, if_pos rfl] at hm
          have : argsGet kwargs "idea" = none := by
            cases ha : argsGet kwargs "idea" with
            | none => rfl
            | some s =>
              rw [ha] at hm
              simp at hm
          simp [applyStep, this]
        · by_cases h2 : t = "add_comment"
          · subst h2
            simp only [missingArgStep] at hm
            have hm2 : argsGet kwargs "content" = none ∨
                argsGet kwargs "comment_text" = none := by
              simpa using hm
            rcases hm2 with hcn | hdn
            · simp [applyStep, h1, hcn]
            · cases ha : argsGet kwargs "content" with
              | none => simp [applyStep, h1, ha]
              | some c =>
                by_cases hce : c = ""
                · simp [applyStep, h1, ha, hdn, hce]
                · simp [applyStep, h1, ha, hdn, hce]
          · simp [missingArgStep, h1, h2] at hm

/-- Claim C6: a tool invocation missing a required argument (`add_idea`
without `idea`; `add_comment` without `content` or without `comment_text`)
appends no record and surfaces no error: applying an agent result containing
such an invocation gives exactly the same outcome (returned project and
error status alike) as applying the result without it. -/
theorem claim_c6_missing_arg_ignored (p : Proj) (out : Option String)
    (pre post : List Step) (st : Step) (hm : missingArgStep st = true) :
    applyToolCallsToProject p ⟨out, some (pre ++ st :: post)⟩ =
      applyToolCallsToProject p ⟨out, some (pre ++ post)⟩ := by
  simp only [applyToolCallsToProject]
  induction pre generalizing p with
  | nil =>
    simp [applyStepsGo, applyStep_missing hm]
  | cons q rest ih =>
    simp only [List.cons_append, applyStepsGo]
    cases hq : applyStep p q with
    | ok m2 => exact ih m2
    | error e => rfl

/-- Witness for C6 at a concrete input: an `add_idea` call without its
`idea` argument, placed between two valid calls, leaves the outcome exactly
as if it were not there. -/
theorem claim_c6_witness :
    applyToolCallsToProject [("plan", Value.vdict [("ideas", Value.vlist [])])]
      ⟨some "ok",
        some [Step.tup ⟨some "add_idea", ToolInput.args [("idea", "a")]⟩ "o1",
              Step.tup ⟨some "add_idea", ToolInput.args [("other", "x")]⟩ "o2",
              Step.tup ⟨some "add_idea", ToolInput.args [("idea", "b")]⟩ "o3"]⟩ =
    applyToolCallsToProject [("plan", Value.vdict [("ideas", Value.vlist [])])]
      ⟨some "ok",
        some [Step.tup ⟨some "add_idea", ToolInput.args [("idea", "a")]⟩ "o1",
              Step.tup ⟨some "add_idea", ToolInput.args [("idea", "b")]⟩ "o3"]⟩ :=
  claim_c6_missing_arg_ignored [("plan", Value.vdict [("ideas", Value.vlist [])])]
    (some "ok")
    [Step.tup ⟨some "add_idea", ToolInput.args [("idea", "a")]⟩ "o1"]
    [Step.tup ⟨some "add_idea", ToolInput.args [("idea", "b")]⟩ "o3"]
    (Step.tup ⟨some "add_idea", ToolInput.args [("other", "x")]⟩ "o2")
    (by decide)

theorem dictGet_some_truthy {fields : List (String × Value)} {k : String} {v : Value}
    (h : dictGet fields k = some v) : (Value.vdict fields).truthy = true := by
  cases fields with
  | nil => simp [dictGet] at h
  | cons a rest => simp [Value.truthy]

/-- Claim C7: the `POST /api/chat` handler validates in source order —
parsed body present and truthy, then `userInput` truthy, then
`currentProject` truthy, then orchestrator initialised — and rejects before
the orchestrator is ever invoked (`ChatRoute.reject` is produced without an
`invokeAgent`, so no model call and no side effect occurs).  An empty
`userInput` yields 400 with error `No userInput provided` regardless of the
rest of the request; a `currentProject` of `\x7b\x7d` (with a provided
`userInput`) yields 400 with error `No currentProject provided` regardless
of the orchestrator's state. -/
theorem claim_c7_validation_order (agentInitialized : Bool)
    (fields : List (String × Value)) :
    (∀ a2 : Bool, chatRoute a2 none = ChatRoute.reject 400 "No data provided" none) ∧
    ((Value.vdict fields).truthy = true →
      ((dictGet fields "userInput").getD (Value.vstr "")).truthy = false →
      chatRoute agentInitialized (some (Value.vdict fields)) =
        ChatRoute.reject 400 "No userInput provided" (some "Please provide a message.")) ∧
    (((dictGet fields "userInput").getD (Value.vstr "")).truthy = true →
      dictGet fields "currentProject" = some (Value.vdict []) →
      chatRoute agentInitialized (some (Value.vdict fields)) =
        ChatRoute.reject 400 "No currentProject provided" (some "Project data is required.")) ∧
    (((dictGet fields "userInput").getD (Value.vstr "")).truthy = true →
      ((dictGet fields "currentProject").getD (Value.vdict [])).truthy = true →
      agentInitialized = false →
      chatRoute agentInitialized (some (Value.vdict fields)) =
        ChatRoute.reject 500 "AI service not available"
          (some "The AI Writing Assistant service is not properly configured. Please contact your administrator.")) ∧
    (((dictGet fields "userInput").getD (Value.vstr "")).truthy = true →
      ((dictGet fields "currentProject").getD (Value.vdict [])).truthy = true →
      agentInitialized = true →
      chatRoute agentInitialized (some (Value.vdict fields)) =
        ChatRoute.invokeAgent ((dictGet fields "userInput").getD (Value.vstr ""))
          ((dictGet fields "currentProject").getD (Value.vdict []))) := by
  refine ⟨fun a2 => rfl, ?_, ?_, ?_, ?_⟩
  · intro hd hu
    simp [chatRoute, hd, hu]
  · intro hu hproj
    have hd := dictGet_some_truthy hproj
    have hpt : (Value.vdict ([] : List (String × Value))).truthy = false := rfl
    simp [chatRoute, hd, hu, hproj, hpt]
  · intro hu hproj hagent
    have hd : (Value.vdict fields).truthy = true := by
      cases hv : dictGet fields "userInput" with
      | none =>
        rw [hv] at hu
        simp [Value.truthy] at hu
      | some v => exact dictGet_some_truthy hv
    simp [chatRoute, hd, hu, hproj, hagent]
  · intro hu hproj hagent
    have hd : (Value.vdict fields).truthy = true := by
      cases hv : dictGet fields "userInput" with
      | none =>
        rw [hv] at hu
        simp [Value.truthy] at hu
      | some v => exact dictGet_some_truthy hv
    simp [chatRoute, hd, hu, hproj, hagent]

/-- Witness for C7 at concrete inputs: a request without `userInput` is
rejected with `No userInput provided` even though its project is valid and
the orchestrator is down, and a request with `currentProject: \x7b\x7d` is
rejected with `No currentProject provided`. -/
theorem claim_c7_witness :
    chatRoute false (some (Value.vdict [("currentProject", Value.vdict [("title", Value.vstr "T")])])) =
      ChatRoute.reject 400 "No userInput provided" (some "Please provide a message.") ∧
    chatRoute false (some (Value.vdict
        [("userInput", Value.vstr "hi"), ("currentProject", Value.vdict [])])) =
      ChatRoute.reject 400 "No currentProject provided" (some "Project data is required.") :=
  ⟨(claim_c7_validation_order false
      [("currentProject", Value.vdict [("title", Value.vstr "T")])]).2.1 rfl rfl,
   (claim_c7_validation_order false
      [("userInput", Value.vstr "hi"), ("currentProject", Value.vdict [])]).2.2.1 rfl rfl⟩

/-- Claim C9: the context builders are deterministic, read-only functions of
the project: on equal inputs, `_create_project_context` and
`_create_full_project_context` produce equal context text (so calling either
twice on the same unmodified project yields identical output). -/
theorem claim_c9_context_deterministic (p q : Proj) (h : p = q) :
    createProjectContext p = createProjectContext q ∧
    createFullProjectContext p = createFullProjectContext q := by
  subst h
  exact ⟨rfl, rfl⟩

/-- Witness for C9 at a concrete input: both context builders give the same
text on two runs over the same project. -/
theorem claim_c9_witness :
    createProjectContext [("title", Value.vstr "Essay"), ("currentPhase", Value.vstr "write")] =
      createProjectContext [("title", Value.vstr "Essay"), ("currentPhase", Value.vstr "write")] ∧
    createFullProjectContext [("title", Value.vstr "Essay"), ("currentPhase", Value.vstr "write")] =
      createFullProjectContext [("title", Value.vstr "Essay"), ("currentPhase", Value.vstr "write")] :=
  claim_c9_context_deterministic
    [("title", Value.vstr "Essay"), ("currentPhase", Value.vstr "write")]
    [("title", Value.vstr "Essay"), ("currentPhase", Value.vstr "write")] rfl
